import Mathlib

/-!
Verification development for the EmbedSanitizer instrumentation pass
(ThreadSanitizer.cpp).  The pass walks each function of an LLVM module,
filters its loads and stores for redundancy, and rewrites the surviving
memory operations, atomics and bulk-memory intrinsics into calls to a
race-detection runtime; it also synthesizes function entry/exit probes.

The shallow embedding below models the data the pass inspects: an address
operand with its resolved base and escape facts, a memory instruction with
size, alignment, ordering and metadata, the instruction stream of a
function, and the probe calls the pass emits.  Each definition mirrors a
function of ThreadSanitizer.cpp and is named after it; line numbers refer
to that file.
-/

namespace ESan

/-- The resolved base of an address operand once offset and cast wrappers
are stripped (stripInBoundsOffsets in shouldInstrumentReadWriteFromAddress,
the one-step GEP peel in addrPointsToConstantData).  A global variable
carries whether its section is the PGO counters section, whether its name
has the gcov prefix, and whether it is constant-qualified; an address that
is itself the result of a load carries whether that load is tagged as a
vtable access by TBAA metadata. -/
inductive AddrBase
  | globalVar (pgoCountersSection gcovPrefix isConst : Bool)
  | loadVal (vtableTagged : Bool)
  | otherBase
deriving DecidableEq, Repr

/-- An address operand of a load or store.  `id` is the identity of the
LLVM Value (the SmallSet of write targets compares Value pointers);
`addrSpace` is the pointer address space; `underlyingIsAlloca` says the
GetUnderlyingObject result is an AllocaInst and `mayBeCaptured` is the
PointerMayBeCaptured verdict (lines 424-425). -/
structure Addr where
  id : Nat
  base : AddrBase
  addrSpace : Nat
  underlyingIsAlloca : Bool
  mayBeCaptured : Bool
deriving DecidableEq, Repr

/-- LLVM atomic memory orderings as the pass sees them.  LLVM has no
Consume ordering; the encoder reserves value 1 for it (lines 678-679). -/
inductive AtomicOrdering
  | notAtomic
  | unordered
  | monotonic
  | acquire
  | release
  | acquireRelease
  | sequentiallyConsistent
deriving DecidableEq, Repr

/-- Atomic read-modify-write operation kinds (AtomicRMWInst binops). -/
inductive RMWOp
  | xchg
  | add
  | sub
  | andOp
  | orOp
  | xorOp
  | nandOp
  | maxOp
  | minOp
  | umaxOp
  | uminOp
deriving DecidableEq, Repr

/-- A load or store instruction: operand address, stored value bit
pattern, the pointee type size in bits (DL.getTypeStoreSizeInBits),
declared alignment (0 meaning natural), source line, the TBAA vtable tag
on the instruction itself, the swifterror marker on the address, and the
atomicity facts the pass dispatches on (isAtomic and getSynchScope,
lines 438-451). -/
structure MemOp where
  isStore : Bool
  addr : Addr
  value : Nat
  sizeBits : Nat
  alignment : Nat
  line : Nat
  vtableAccess : Bool
  swiftError : Bool
  atomic : Bool
  crossThread : Bool
  ord : AtomicOrdering
deriving DecidableEq, Repr

/-- Library primitives the bulk-memory lowering targets. -/
inductive LibFn
  | memsetF
  | memcpyF
  | memmoveF
deriving DecidableEq, Repr

/-- The instruction variants runOnFunction dispatches on.  `mem` covers
plain and atomic loads/stores; `libcall` is a plain (non-intrinsic) call
to a named library primitive as produced by the bulk-memory lowering;
`callOther` is any other call or invoke; `ret` is a syntactic return. -/
inductive Instr
  | mem (m : MemOp)
  | rmw (op : RMWOp) (addr : Addr) (sizeBits : Nat) (ord : AtomicOrdering) (value : Nat)
  | cas (addr : Addr) (sizeBits : Nat) (succOrd failOrd : AtomicOrdering) (cmp newV : Nat)
  | fence (ord : AtomicOrdering) (singleThread : Bool)
  | memSetI (dst value len : Nat)
  | memCpyI (dst src len : Nat)
  | memMoveI (dst src len : Nat)
  | libcall (fn : LibFn) (args : List Nat)
  | callOther
  | ret
  | otherInstr
deriving DecidableEq, Repr

/-- A function as the pass sees it: its name, the SanitizeThread
attribute (race-checked), the sanitize_thread_no_checking_at_run_time
attribute (suppressed at runtime), its basic blocks, and the number of
exception-unwind edges its calls introduce (consumed by the escape
enumeration, which is outside the sources of this file). -/
structure Func where
  name : String
  sanitizeThread : Bool
  noCheckingAtRunTime : Bool
  blocks : List (List Instr)
  unwindEdges : Nat
deriving DecidableEq, Repr

/-- The command-line flags of the pass, all defaulting to true
(lines 57-72). -/
structure Flags where
  instrumentMemoryAccesses : Bool
  instrumentFuncEntryExit : Bool
  handleCxxExceptions : Bool
  instrumentAtomics : Bool
  instrumentMemIntrinsics : Bool
deriving DecidableEq, Repr

/-- All flags at their default value true. -/
def defaultFlags : Flags := ⟨true, true, true, true, true⟩

/-- A runtime probe call the pass emits.  Arguments are the ones the pass
computes: probe-table index, address identity, the source line already
truncated to 8 bits, ordering encodings, value bit patterns.  The opaque
object-name and file-name string arguments of the access probes are
supplied by external debug-metadata helpers and are not modelled. -/
inductive Probe
  | printVars (tag addrId line8 : Nat)
  | funcEntry (fname : String)
  | funcExit (fname : String)
  | mainFuncExit (fname : String)
  | ignoreBegin
  | ignoreEnd
  | read (idx addrId line8 : Nat)
  | write (idx addrId line8 : Nat)
  | unalignedRead (idx addrId line8 : Nat)
  | unalignedWrite (idx addrId line8 : Nat)
  | vptrUpdate (addrId line8 : Nat)
  | vptrRead (addrId line8 : Nat)
  | atomicLoad (idx addrId ordVal : Nat)
  | atomicStore (idx addrId value ordVal : Nat)
  | atomicRMW (op : RMWOp) (idx addrId value ordVal : Nat)
  | atomicCAS (idx addrId cmp newV succOrd failOrd : Nat)
  | threadFence (ordVal : Nat)
  | signalFence (ordVal : Nat)
  | plainMemset (dst value len : Nat)
  | plainMemcpy (dst src len : Nat)
  | plainMemmove (dst src len : Nat)
deriving DecidableEq, Repr

/-- Probe families, used to show that no phase emits probes belonging
to another phase. -/
inductive PFam
  | printF
  | accessF
  | atomicF
  | bulkF
  | ignoreF
  | entryF
deriving DecidableEq, Repr

/-- The family a probe belongs to. -/
def pFam : Probe → PFam
  | .printVars .. => .printF
  | .funcEntry _ => .entryF
  | .funcExit _ => .entryF
  | .mainFuncExit _ => .entryF
  | .ignoreBegin => .ignoreF
  | .ignoreEnd => .ignoreF
  | .read .. => .accessF
  | .write .. => .accessF
  | .unalignedRead .. => .accessF
  | .unalignedWrite .. => .accessF
  | .vptrUpdate .. => .accessF
  | .vptrRead .. => .accessF
  | .atomicLoad .. => .atomicF
  | .atomicStore .. => .atomicF
  | .atomicRMW .. => .atomicF
  | .atomicCAS .. => .atomicF
  | .threadFence _ => .atomicF
  | .signalFence _ => .atomicF
  | .plainMemset .. => .bulkF
  | .plainMemcpy .. => .bulkF
  | .plainMemmove .. => .bulkF

/-- Probe predicate: the print probe of the redundancy filter. -/
def isPrintP : Probe → Bool
  | .printVars .. => true
  | _ => false

/-- Probe predicate: the function entry probe. -/
def isFuncEntryP : Probe → Bool
  | .funcEntry _ => true
  | _ => false

/-- Probe predicate: the function exit probe. -/
def isFuncExitP : Probe → Bool
  | .funcExit _ => true
  | _ => false

/-- Probe predicate: the main finalize probe. -/
def isMainExitP : Probe → Bool
  | .mainFuncExit _ => true
  | _ => false

/-- Probe predicate: the begin-ignore probe. -/
def isIgnoreBeginP : Probe → Bool
  | .ignoreBegin => true
  | _ => false

/-- Probe predicate: the end-ignore probe. -/
def isIgnoreEndP : Probe → Bool
  | .ignoreEnd => true
  | _ => false

/-- Probe predicate: a plain-access or vtable probe (the per-access
instrumentation of instrumentLoadOrStore). -/
def isAccessP (p : Probe) : Bool := pFam p == PFam.accessF

/-- Probe predicate: the aligned plain-access variants (readN/writeN). -/
def isAlignedVariantP : Probe → Bool
  | .read .. => true
  | .write .. => true
  | _ => false

/-- Probe predicate: the unaligned plain-access variants. -/
def isUnalignedVariantP : Probe → Bool
  | .unalignedRead .. => true
  | .unalignedWrite .. => true
  | _ => false

/-- shouldInstrumentReadWriteFromAddress, lines 305-337: refuse globals in
the PGO counters section or with the gcov name prefix, and any address in
a non-default address space. -/
def shouldInstrumentReadWriteFromAddress (a : Addr) : Bool :=
  match a.base with
  | .globalVar pgo gcov _ =>
    if pgo then false
    else if gcov then false
    else a.addrSpace == 0
  | _ => a.addrSpace == 0

/-- addrPointsToConstantData, lines 339-363: true for a constant global
base and for an address loaded from a vtable-tagged location. -/
def addrPointsToConstantData (a : Addr) : Bool :=
  match a.base with
  | .globalVar _ _ isConst => isConst
  | .loadVal vt => vt
  | .otherBase => false

/-- The never-captured stack allocation test of lines 424-425:
GetUnderlyingObject is an alloca and PointerMayBeCaptured is false. -/
def nonCapturedStack (a : Addr) : Bool := a.underlyingIsAlloca && !a.mayBeCaptured

/-- The __tsan_print_variables call the redundancy filter inserts in
front of a load or store (lines 391-394 and 403-406): the constant tag is
the source line of the CreateCall in ThreadSanitizer.cpp, the address is
pointer-cast, and the source line is IntCast to i8 (hence mod 256). -/
def printOf (m : MemOp) : Probe :=
  .printVars (if m.isStore then 391 else 403) m.addr.id (m.line % 256)

/-- State of one chooseInstructionsToInstrument run: the write-target
set (Value identities), the All vector of scheduled instructions, and the
print probes inserted into the function so far. -/
structure ChooseSt where
  writeTargets : List Nat
  all : List MemOp
  printed : List Probe
deriving DecidableEq, Repr

/-- One iteration of the reverse walk of chooseInstructionsToInstrument
(lines 383-434).  Every instruction first gets a print probe; an excluded
address is skipped; a store records its address among the write targets; a
load already covered by a later write or pointing to constant data is
dropped; a never-captured stack object is dropped; anything left is
scheduled into All. -/
def chooseStep (s : ChooseSt) (m : MemOp) : ChooseSt :=
  let s1 : ChooseSt := { s with printed := s.printed ++ [printOf m] }
  if m.isStore then
    if shouldInstrumentReadWriteFromAddress m.addr then
      let s2 : ChooseSt := { s1 with writeTargets := m.addr.id :: s1.writeTargets }
      if nonCapturedStack m.addr then s2 else { s2 with all := s2.all ++ [m] }
    else s1
  else
    if shouldInstrumentReadWriteFromAddress m.addr then
      if s1.writeTargets.contains m.addr.id then s1
      else if addrPointsToConstantData m.addr then s1
      else if nonCapturedStack m.addr then s1
      else { s1 with all := s1.all ++ [m] }
    else s1

/-- chooseInstructionsToInstrument, lines 377-436: iterate over the local
call-free segment from the end, with a fresh write-target set, extending
All and the inserted print probes. -/
def chooseInstructionsToInstrument (locals : List MemOp) (all : List MemOp)
    (printed : List Probe) : ChooseSt :=
  List.foldl chooseStep ⟨[], all, printed⟩ locals.reverse

/-- The per-segment filter exactly as claim C1 words it, processing the
reversed segment (latest instruction first): a store to a non-excluded
address is recorded in the write set and scheduled; a load is dropped when
its address is excluded, already among the write targets, or points to
constant data (constant global or vtable-tagged load); a load or store on
a never-captured stack allocation is not scheduled.  Returns the final
write set and the scheduled instructions in processing order. -/
def specLocalFilter (ws : List Nat) : List MemOp → List Nat × List MemOp
  | [] => (ws, [])
  | m :: rest =>
    if m.isStore then
      if shouldInstrumentReadWriteFromAddress m.addr = false then specLocalFilter ws rest
      else
        let r := specLocalFilter (m.addr.id :: ws) rest
        if nonCapturedStack m.addr then r else (r.1, m :: r.2)
    else
      if shouldInstrumentReadWriteFromAddress m.addr = false then specLocalFilter ws rest
      else if ws.contains m.addr.id then specLocalFilter ws rest
      else if addrPointsToConstantData m.addr then specLocalFilter ws rest
      else if nonCapturedStack m.addr then specLocalFilter ws rest
      else
        let r := specLocalFilter ws rest
        (r.1, m :: r.2)

/-- getMemoryAccessFuncIndex, lines 838-855: the probe-table index of a
store size — countTrailingZeros of the byte size, which on the five
supported sizes 8/16/32/64/128 bits is 0/1/2/3/4 — or none for any other
size. -/
def getMemoryAccessFuncIndex (sizeBits : Nat) : Option Nat :=
  if sizeBits = 8 then some 0
  else if sizeBits = 16 then some 1
  else if sizeBits = 32 then some 2
  else if sizeBits = 64 then some 3
  else if sizeBits = 128 then some 4
  else none

/-- The NumAccessesWithBadSize increment of line 848: 1 exactly when the
size is refused. -/
def numAccessesWithBadSizeDelta (sizeBits : Nat) : Nat :=
  match getMemoryAccessFuncIndex sizeBits with
  | some _ => 0
  | none => 1

/-- instrumentLoadOrStore, lines 591-664: the single probe emitted for a
scheduled plain load or store, or none when the instruction is skipped
(swifterror address or unsupported size).  A vtable store or load uses the
dedicated vptr probes; otherwise the aligned variant is used when the
alignment is 0, at least 8, or divides evenly into the access size, and
the unaligned variant otherwise.  The source line is IntCast to i8. -/
def instrumentLoadOrStore (m : MemOp) : Option Probe :=
  if m.swiftError then none
  else
    match getMemoryAccessFuncIndex m.sizeBits with
    | none => none
    | some idx =>
      if m.isStore && m.vtableAccess then some (.vptrUpdate m.addr.id (m.line % 256))
      else if !m.isStore && m.vtableAccess then some (.vptrRead m.addr.id (m.line % 256))
      else if m.alignment = 0 ∨ 8 ≤ m.alignment ∨ m.alignment % (m.sizeBits / 8) = 0 then
        some (if m.isStore then .write idx m.addr.id (m.line % 256)
              else .read idx m.addr.id (m.line % 256))
      else
        some (if m.isStore then .unalignedWrite idx m.addr.id (m.line % 256)
              else .unalignedRead idx m.addr.id (m.line % 256))

/-- Alignment compatibility as the specification words it: the declared
alignment is compatible with the natural alignment of the access size when
it is 0 (natural) or a multiple of the access size in bytes. -/
def naturallyAligned (alignment sizeBytes : Nat) : Bool :=
  alignment == 0 || alignment % sizeBytes == 0

/-- createOrdering, lines 666-694: the integer encoding of an atomic
ordering.  NotAtomic is llvm_unreachable, modelled as none; value 1 is
reserved for the unsupported Consume level and never produced. -/
def createOrdering : AtomicOrdering → Option Nat
  | .notAtomic => none
  | .unordered => some 0
  | .monotonic => some 0
  | .acquire => some 2
  | .release => some 3
  | .acquireRelease => some 4
  | .sequentiallyConsistent => some 5

/-- Whether TsanAtomicRMW has a probe for the operation kind
(lines 228-252): exchange, add, sub, and, or, xor, nand do; the min/max
kinds fall through the else-continue and stay null. -/
def rmwHasProbe : RMWOp → Bool
  | .xchg => true
  | .add => true
  | .sub => true
  | .andOp => true
  | .orOp => true
  | .xorOp => true
  | .nandOp => true
  | _ => false

/-- instrumentAtomic, lines 737-836.  Result: none models the
llvm_unreachable abort inside createOrdering; some (probes, changed)
mirrors the emitted calls and the boolean return.  Unsupported sizes and
RMW kinds without a probe return some ([], false): skipped, not failed. -/
def instrumentAtomic (i : Instr) : Option (List Probe × Bool) :=
  match i with
  | .mem m =>
    match getMemoryAccessFuncIndex m.sizeBits with
    | none => some ([], false)
    | some idx =>
      match createOrdering m.ord with
      | none => none
      | some ov =>
        if m.isStore then some ([.atomicStore idx m.addr.id m.value ov], true)
        else some ([.atomicLoad idx m.addr.id ov], true)
  | .rmw op a sz ord v =>
    match getMemoryAccessFuncIndex sz with
    | none => some ([], false)
    | some idx =>
      if rmwHasProbe op then
        match createOrdering ord with
        | none => none
        | some ov => some ([.atomicRMW op idx a.id v ov], true)
      else some ([], false)
  | .cas a sz so fo cmp nv =>
    match getMemoryAccessFuncIndex sz with
    | none => some ([], false)
    | some idx =>
      match createOrdering so, createOrdering fo with
      | some sv, some fv => some ([.atomicCAS idx a.id cmp nv sv fv], true)
      | _, _ => none
  | .fence ord st =>
    match createOrdering ord with
    | none => none
    | some ov => some ([if st then .signalFence ov else .threadFence ov], true)
  | _ => some ([], true)

/-- instrumentMemIntrinsic, lines 705-727, seen as an in-place rewrite of
the instruction stream: a memset intrinsic becomes a plain call to memset
with the same destination, value and length; memcpy and memmove intrinsics
become plain calls to memcpy and memmove with the same destination, source
and length; the original intrinsic is erased.  Other instructions are
untouched. -/
def instrumentMemIntrinsic : Instr → Instr
  | .memSetI d v l => .libcall .memsetF [d, v, l]
  | .memCpyI d s l => .libcall .memcpyF [d, s, l]
  | .memMoveI d s l => .libcall .memmoveF [d, s, l]
  | i => i

/-- The bulk-memory lowering pass over a whole instruction stream. -/
def lowerBulk (prog : List Instr) : List Instr := prog.map instrumentMemIntrinsic

/-- The probe call instrumentMemIntrinsic emits for a bulk-memory
intrinsic (the runtime intercepts the plain primitive call). -/
def memIntrinProbe : Instr → List Probe
  | .memSetI d v l => [.plainMemset d v l]
  | .memCpyI d s l => [.plainMemcpy d s l]
  | .memMoveI d s l => [.plainMemmove d s l]
  | _ => []

/-- isAtomic, lines 438-451: atomic cross-thread loads and stores, and
every RMW, compare-exchange and fence. -/
def isAtomicI : Instr → Bool
  | .mem m => m.atomic && m.crossThread
  | .rmw .. => true
  | .cas .. => true
  | .fence .. => true
  | _ => false

/-- A load or store that is dispatched to the local segment (not taken by
the atomic branch of the collection loop). -/
def isPlainMemI : Instr → Bool
  | .mem m => !(m.atomic && m.crossThread)
  | _ => false

/-- A call or invoke instruction (CallInst / InvokeInst), which resets the
call-free segment.  Bulk-memory intrinsics and plain library calls are
calls. -/
def isCallLikeI : Instr → Bool
  | .callOther => true
  | .libcall .. => true
  | .memSetI .. => true
  | .memCpyI .. => true
  | .memMoveI .. => true
  | _ => false

/-- A MemIntrinsic (llvm.memset / llvm.memcpy / llvm.memmove). -/
def isMemIntrinsicI : Instr → Bool
  | .memSetI .. => true
  | .memCpyI .. => true
  | .memMoveI .. => true
  | _ => false

/-- A syntactic return point. -/
def isRetI : Instr → Bool
  | .ret => true
  | _ => false

/-- State of the collection loop of runOnFunction (lines 472-517):
the pending call-free segment, the All vector, the print probes already
inserted, the atomic accesses, the MemIntrinCalls vector and HasCalls. -/
structure CollectSt where
  locals : List MemOp
  all : List MemOp
  printed : List Probe
  atomics : List Instr
  memIntrins : List Instr
  hasCalls : Bool
deriving DecidableEq, Repr

/-- Flush the pending segment through chooseInstructionsToInstrument and
clear it (the Local.clear of line 435). -/
def flushSegment (st : CollectSt) : CollectSt :=
  let out := chooseInstructionsToInstrument st.locals st.all st.printed
  { st with locals := [], all := out.all, printed := out.printed }

/-- One instruction of the collection loop (lines 486-514): atomics are
collected; plain loads/stores extend the pending segment; a call collects
a MemIntrinsic, sets HasCalls and flushes the segment. -/
def collectInstr (st : CollectSt) (i : Instr) : CollectSt :=
  if isAtomicI i then { st with atomics := st.atomics ++ [i] }
  else
    match i with
    | .mem m => { st with locals := st.locals ++ [m] }
    | _ =>
      if isCallLikeI i then
        let st1 :=
          if isMemIntrinsicI i then { st with memIntrins := st.memIntrins ++ [i] } else st
        flushSegment { st1 with hasCalls := true }
      else st

/-- One basic block of the collection loop: process every instruction,
then flush the pending segment (line 516). -/
def collectBlock (st : CollectSt) (blk : List Instr) : CollectSt :=
  flushSegment (blk.foldl collectInstr st)

/-- The whole collection phase of runOnFunction. -/
def collectF (F : Func) : CollectSt :=
  F.blocks.foldl collectBlock ⟨[], [], [], [], [], false⟩

/-- Number of syntactic return points of a function. -/
def returnPointCount (F : Func) : Nat :=
  (F.blocks.map (fun b => b.countP isRetI)).sum

/-- Modelled from the spec: the escape enumeration utility the pass uses
to reach every exit path is not among the sources of this repository; per the
specification the synthesizer enumerates every exit path, one per
syntactic return point plus one per exception-unwind edge (the latter only
when C++ exception handling is enabled). -/
def exitPaths (fl : Flags) (F : Func) : Nat :=
  returnPointCount F + (if fl.handleCxxExceptions then F.unwindEdges else 0)

/-- InsertRuntimeIgnores, lines 453-462: a begin-ignore probe at the
first insertion point of the entry block and an end-ignore probe on every
exit path. -/
def InsertRuntimeIgnores (fl : Flags) (F : Func) : List Probe :=
  Probe.ignoreBegin :: List.replicate (exitPaths fl F) Probe.ignoreEnd

/-- Entry/exit synthesis, lines 559-586: an entry probe carrying the
function name at the start of the entry block, an exit probe on every exit
path, and the finalize probe on every exit path when the name is main. -/
def entryExitProbes (fl : Flags) (F : Func) : List Probe :=
  Probe.funcEntry F.name ::
    (List.replicate (exitPaths fl F) (Probe.funcExit F.name) ++
      (if F.name == "main" then List.replicate (exitPaths fl F) (Probe.mainFuncExit F.name)
       else []))

/-- The plain-access instrumentation loop of lines 527-531. -/
def accessPhase (ms : List MemOp) : List Probe × Bool :=
  ms.foldl
    (fun acc m =>
      match instrumentLoadOrStore m with
      | some p => (acc.1 ++ [p], true)
      | none => acc)
    ([], false)

/-- The atomic instrumentation loop of lines 535-539; none when one
instruction hits the llvm_unreachable inside createOrdering. -/
def atomicPhase : List Instr → Option (List Probe × Bool)
  | [] => some ([], false)
  | i :: rest =>
    match instrumentAtomic i, atomicPhase rest with
    | some (ps, r), some (ps2, r2) => some (ps ++ ps2, r || r2)
    | _, _ => none

/-- The bulk-memory instrumentation loop of lines 541-545 (its boolean
contribution to Res is false, line 726). -/
def memIntrinPhase (is : List Instr) : List Probe :=
  is.foldl (fun ps i => ps ++ memIntrinProbe i) []

/-- runOnFunction up to and including the runtime-ignore section
(lines 465-554): the probes emitted before entry/exit synthesis, the Res
accumulator and HasCalls.  none models an abort: the llvm_unreachable in
createOrdering, or the assertion of line 551 when the function is marked
both race-checked and suppressed. -/
def phase1 (fl : Flags) (F : Func) : Option (List Probe × Bool × Bool) :=
  let c := collectF F
  let ap := if fl.instrumentMemoryAccesses && F.sanitizeThread then accessPhase c.all
            else ([], false)
  match atomicPhase (if fl.instrumentAtomics then c.atomics else []) with
  | none => none
  | some (tps, tres) =>
    let mps := if fl.instrumentMemIntrinsics && F.sanitizeThread then memIntrinPhase c.memIntrins
               else []
    if F.noCheckingAtRunTime && F.sanitizeThread then none
    else
      let igs := if F.noCheckingAtRunTime && c.hasCalls then InsertRuntimeIgnores fl F else []
      some (c.printed ++ ap.1 ++ tps ++ mps ++ igs, ap.2 || tres, c.hasCalls)

/-- runOnFunction, lines 465-589: phase1 followed by the entry/exit
synthesizer, which runs when instrumentation occurred or the function
contains a call. -/
def runOnFunction (fl : Flags) (F : Func) : Option (List Probe × Bool) :=
  match phase1 fl F with
  | none => none
  | some (ps, res, hasCalls) =>
    if (res || hasCalls) && fl.instrumentFuncEntryExit then
      some (ps ++ entryExitProbes fl F, true)
    else some (ps, res)

/-- Modelled from the spec: the runtime probe
__tsan_atomicN_compare_exchange_val (the runtime library is not under this
repository sources; the specification gives its interface) performs the
compare-and-swap and returns the single old value read from the location.
Result: (memory afterwards, returned value). -/
def tsanAtomicCASProbe (mem expected newV : Nat) : Nat × Nat :=
  (if mem = expected then newV else mem, mem)

/-- The two-part result reconstruction of lines 811-823: the success flag
is the equality comparison of the returned value with the expected
operand, and the old value is the returned value itself (for pointer
operands the int-to-pointer cast is the identity on bit patterns). -/
def casReconstruct (ret expected : Nat) : Nat × Bool :=
  (ret, ret == expected)

/-- The un-instrumented compare-exchange semantics: result pair
{old value, success flag} and the memory afterwards. -/
def atomicCmpXchg (mem expected newV : Nat) : (Nat × Bool) × Nat :=
  ((mem, mem == expected), if mem = expected then newV else mem)

/-- Number of plain (non-atomic-dispatched) loads and stores of a
function: exactly the instructions the collection loop routes through the
redundancy filter. -/
def memCountF (F : Func) : Nat :=
  (F.blocks.map (fun b => b.countP isPlainMemI)).sum

/-- The source-line argument an access probe carries, when it has one. -/
def probeLineArg : Probe → Option Nat
  | .read _ _ l => some l
  | .write _ _ l => some l
  | .unalignedRead _ _ l => some l
  | .unalignedWrite _ _ l => some l
  | .vptrUpdate _ l => some l
  | .vptrRead _ l => some l
  | _ => none

/-- Counterexample input for claim C2: a race-checked function with no
memory accesses and no calls. -/
def c2Func : Func :=
  { name := "f", sanitizeThread := true, noCheckingAtRunTime := false,
    blocks := [[Instr.ret]], unwindEdges := 0 }

/-- Witness input for claim C2 (amended): the program entry point with one
call and one return. -/
def c2MainFunc : Func :=
  { name := "main", sanitizeThread := false, noCheckingAtRunTime := false,
    blocks := [[Instr.callOther, Instr.ret]], unwindEdges := 0 }

/-- A plain mutable address in the default address space whose base is
neither a global nor a vtable load nor a stack allocation. -/
def plainAddr : Addr :=
  { id := 0, base := AddrBase.otherBase, addrSpace := 0,
    underlyingIsAlloca := false, mayBeCaptured := true }

/-- Counterexample input for claim C6: a 16-byte store with declared
alignment 8 (below the natural alignment 16). -/
def c6MemOp : MemOp :=
  { isStore := true, addr := plainAddr, value := 0, sizeBits := 128,
    alignment := 8, line := 5, vtableAccess := false, swiftError := false,
    atomic := false, crossThread := false, ord := AtomicOrdering.notAtomic }

/-- Witness input for claim C6 (amended): a 4-byte load with declared
alignment 2. -/
def c6WMemOp : MemOp :=
  { isStore := false, addr := plainAddr, value := 0, sizeBits := 32,
    alignment := 2, line := 9, vtableAccess := false, swiftError := false,
    atomic := false, crossThread := false, ord := AtomicOrdering.notAtomic }

/-- Witness input for claim C10: a store on source line 300. -/
def c10MemOp : MemOp :=
  { isStore := true, addr := plainAddr, value := 0, sizeBits := 32,
    alignment := 4, line := 300, vtableAccess := false, swiftError := false,
    atomic := false, crossThread := false, ord := AtomicOrdering.notAtomic }

/-- Witness input for claim C8: a suppressed function with one call. -/
def c8Func : Func :=
  { name := "g", sanitizeThread := false, noCheckingAtRunTime := true,
    blocks := [[Instr.callOther, Instr.ret]], unwindEdges := 0 }

/-- Witness input for claim C9: a function, not race-checked, with one
plain load and one plain store and no calls. -/
def c9Func : Func :=
  { name := "h", sanitizeThread := false, noCheckingAtRunTime := false,
    blocks := [[Instr.mem c10MemOp,
                Instr.mem { c10MemOp with isStore := false, line := 7 },
                Instr.ret]],
    unwindEdges := 0 }

/-! Helper lemmas. -/

/-- Generic fold invariant preservation. -/
theorem foldlInv {α β : Type} {P : β → Prop} (f : β → α → β)
    (hf : ∀ s a, P s → P (f s a)) : ∀ (l : List α) (s : β), P s → P (List.foldl f s l)
  | [], _, hs => hs
  | a :: l, s, hs => foldlInv f hf l (f s a) (hf s a hs)

/-- countP over replicate. -/
theorem countP_replicate {α : Type} (q : α → Bool) (n : Nat) (a : α) :
    List.countP q (List.replicate n a) = if q a then n else 0 := by
  induction n with
  | zero => simp
  | succ k ih =>
    rw [List.replicate_succ, List.countP_cons, ih]
    cases h : q a <;> simp [h]

/-- A list whose members all sit in one probe family has no member
satisfying a predicate that never holds in that family. -/
theorem countP_zero_of_fam (l : List Probe) (f : PFam)
    (hl : ∀ p ∈ l, pFam p = f) (q : Probe → Bool)
    (hq : ∀ p, q p = true → pFam p ≠ f) : List.countP q l = 0 := by
  rw [List.countP_eq_zero]
  intro p hp hqp
  exact hq p hqp (hl p hp)

/-- The fold of chooseStep over a segment is the claim-side filter plus
one print probe per processed instruction. -/
theorem chooseFold : ∀ (l : List MemOp) (ws : List Nat) (all : List MemOp)
    (printed : List Probe),
    List.foldl chooseStep ⟨ws, all, printed⟩ l =
      ⟨(specLocalFilter ws l).1, all ++ (specLocalFilter ws l).2,
        printed ++ l.map printOf⟩
  | [], ws, all, printed => by simp [specLocalFilter]
  | m :: rest, ws, all, printed => by
    rw [List.foldl_cons]
    cases hs : m.isStore with
    | true =>
      cases hi : shouldInstrumentReadWriteFromAddress m.addr with
      | true =>
        cases hc : nonCapturedStack m.addr with
        | true =>
          rw [show chooseStep ⟨ws, all, printed⟩ m
                = ⟨m.addr.id :: ws, all, printed ++ [printOf m]⟩ by
              simp [chooseStep, hs, hi, hc]]
          rw [chooseFold rest]
          simp [specLocalFilter, hs, hi, hc]
        | false =>
          rw [show chooseStep ⟨ws, all, printed⟩ m
                = ⟨m.addr.id :: ws, all ++ [m], printed ++ [printOf m]⟩ by
              simp [chooseStep, hs, hi, hc]]
          rw [chooseFold rest]
          simp [specLocalFilter, hs, hi, hc]
      | false =>
        rw [show chooseStep ⟨ws, all, printed⟩ m
              = ⟨ws, all, printed ++ [printOf m]⟩ by
            simp [chooseStep, hs, hi]]
        rw [chooseFold rest]
        simp [specLocalFilter, hs, hi]
    | false =>
      cases hi : shouldInstrumentReadWriteFromAddress m.addr with
      | true =>
        cases hw : ws.contains m.addr.id with
        | true =>
          have hw2 : m.addr.id ∈ ws := by simpa using hw
          rw [show chooseStep ⟨ws, all, printed⟩ m
                = ⟨ws, all, printed ++ [printOf m]⟩ by
              simp [chooseStep, hs, hi, hw2]]
          rw [chooseFold rest]
          simp [specLocalFilter, hs, hi, hw2]
        | false =>
          cases hk : addrPointsToConstantData m.addr with
          | true =>
            have hw2 : m.addr.id ∉ ws := by simpa using hw
            rw [show chooseStep ⟨ws, all, printed⟩ m
                  = ⟨ws, all, printed ++ [printOf m]⟩ by
                simp [chooseStep, hs, hi, hw2, hk]]
            rw [chooseFold rest]
            simp [specLocalFilter, hs, hi, hw2, hk]
          | false =>
            cases hc : nonCapturedStack m.addr with
            | true =>
              have hw2 : m.addr.id ∉ ws := by simpa using hw
              rw [show chooseStep ⟨ws, all, printed⟩ m
                    = ⟨ws, all, printed ++ [printOf m]⟩ by
                  simp [chooseStep, hs, hi, hw2, hk, hc]]
              rw [chooseFold rest]
              simp [specLocalFilter, hs, hi, hw2, hk, hc]
            | false =>
              have hw2 : m.addr.id ∉ ws := by simpa using hw
              rw [show chooseStep ⟨ws, all, printed⟩ m
                    = ⟨ws, all ++ [m], printed ++ [printOf m]⟩ by
                  simp [chooseStep, hs, hi, hw2, hk, hc]]
              rw [chooseFold rest]
              simp [specLocalFilter, hs, hi, hw2, hk, hc]
      | false =>
        rw [show chooseStep ⟨ws, all, printed⟩ m
              = ⟨ws, all, printed ++ [printOf m]⟩ by
            simp [chooseStep, hs, hi]]
        rw [chooseFold rest]
        simp [specLocalFilter, hs, hi]

/-- The print probes a filter run inserts: one per instruction of the
segment, in reverse program order, after whatever was inserted before. -/
theorem choose_printed (locals all : List MemOp) (printed : List Probe) :
    (chooseInstructionsToInstrument locals all printed).printed
      = printed ++ locals.reverse.map printOf := by
  rw [chooseInstructionsToInstrument, chooseFold]

/-- The All vector a filter run produces. -/
theorem choose_all (locals all : List MemOp) (printed : List Probe) :
    (chooseInstructionsToInstrument locals all printed).all
      = all ++ (specLocalFilter [] locals.reverse).2 := by
  rw [chooseInstructionsToInstrument, chooseFold]

/-- The final write-target set of a filter run. -/
theorem choose_writeTargets (locals all : List MemOp) (printed : List Probe) :
    (chooseInstructionsToInstrument locals all printed).writeTargets
      = (specLocalFilter [] locals.reverse).1 := by
  rw [chooseInstructionsToInstrument, chooseFold]

/-- Print probes are in the print family. -/
theorem printOf_fam (m : MemOp) : pFam (printOf m) = PFam.printF := rfl

/-- Flushing a segment appends one print probe per pending instruction. -/
theorem flushSegment_printed (st : CollectSt) :
    (flushSegment st).printed = st.printed ++ st.locals.reverse.map printOf := by
  simp [flushSegment, choose_printed]

/-- Flushing clears the pending segment. -/
theorem flushSegment_locals (st : CollectSt) : (flushSegment st).locals = [] := rfl

/-- A print probe satisfies the print predicate. -/
theorem isPrintP_printOf (m : MemOp) : isPrintP (printOf m) = true := rfl

/-- Every probe of a printOf image satisfies the print predicate. -/
theorem countP_print_map_printOf (l : List MemOp) :
    List.countP isPrintP (l.map printOf) = (l.map printOf).length := by
  rw [List.countP_eq_length]
  intro p hp
  obtain ⟨m, _, rfl⟩ := List.mem_map.1 hp
  rfl

/-- One collection step adds one print-or-pending unit exactly for a
plain load or store. -/
theorem collectInstr_count (st : CollectSt) (i : Instr) :
    List.countP isPrintP (collectInstr st i).printed + (collectInstr st i).locals.length
      = List.countP isPrintP st.printed + st.locals.length
        + (if isPlainMemI i then 1 else 0) := by
  cases i with
  | mem m =>
    by_cases h : (m.atomic && m.crossThread) = true
    · simp [collectInstr, isAtomicI, isPlainMemI, h]
    · simp only [Bool.not_eq_true] at h
      simp [collectInstr, isAtomicI, isPlainMemI, h]
      omega
  | rmw op a sz ord v => simp [collectInstr, isAtomicI, isPlainMemI]
  | cas a sz so fo c n => simp [collectInstr, isAtomicI, isPlainMemI]
  | fence ord st1 => simp [collectInstr, isAtomicI, isPlainMemI]
  | memSetI d v l =>
    simp [collectInstr, isAtomicI, isPlainMemI, isCallLikeI, isMemIntrinsicI,
          flushSegment_printed, flushSegment_locals, List.countP_append,
          isPrintP_printOf, List.countP_true]
  | memCpyI d s l =>
    simp [collectInstr, isAtomicI, isPlainMemI, isCallLikeI, isMemIntrinsicI,
          flushSegment_printed, flushSegment_locals, List.countP_append,
          isPrintP_printOf, List.countP_true]
  | memMoveI d s l =>
    simp [collectInstr, isAtomicI, isPlainMemI, isCallLikeI, isMemIntrinsicI,
          flushSegment_printed, flushSegment_locals, List.countP_append,
          isPrintP_printOf, List.countP_true]
  | libcall fn args =>
    simp [collectInstr, isAtomicI, isPlainMemI, isCallLikeI, isMemIntrinsicI,
          flushSegment_printed, flushSegment_locals, List.countP_append,
          isPrintP_printOf, List.countP_true]
  | callOther =>
    simp [collectInstr, isAtomicI, isPlainMemI, isCallLikeI, isMemIntrinsicI,
          flushSegment_printed, flushSegment_locals, List.countP_append,
          isPrintP_printOf, List.countP_true]
  | ret => simp [collectInstr, isAtomicI, isPlainMemI, isCallLikeI]
  | otherInstr => simp [collectInstr, isAtomicI, isPlainMemI, isCallLikeI]

/-- The collection loop over one block body preserves the print count
invariant. -/
theorem collectFold_count (blk : List Instr) : ∀ st : CollectSt,
    List.countP isPrintP (List.foldl collectInstr st blk).printed
        + (List.foldl collectInstr st blk).locals.length
      = List.countP isPrintP st.printed + st.locals.length + blk.countP isPlainMemI := by
  induction blk with
  | nil => intro st; simp
  | cons i rest ih =>
    intro st
    rw [List.foldl_cons, List.countP_cons]
    have h1 := collectInstr_count st i
    have h2 := ih (collectInstr st i)
    cases hpi : isPlainMemI i <;> simp [hpi] at h1 ⊢ <;> omega

/-- Print count after one whole block. -/
theorem collectBlock_count (st : CollectSt) (blk : List Instr) :
    List.countP isPrintP (collectBlock st blk).printed
      = List.countP isPrintP st.printed + st.locals.length + blk.countP isPlainMemI := by
  rw [collectBlock, flushSegment_printed, List.countP_append, countP_print_map_printOf]
  have := collectFold_count blk st
  simp only [List.length_map, List.length_reverse]
  omega

/-- A block leaves no pending segment behind. -/
theorem collectBlock_locals (st : CollectSt) (blk : List Instr) :
    (collectBlock st blk).locals = [] := rfl

/-- Print count over a list of blocks. -/
theorem collectBlocks_count : ∀ (bs : List (List Instr)) (st : CollectSt),
    List.countP isPrintP (List.foldl collectBlock st bs).printed
        + (List.foldl collectBlock st bs).locals.length
      = List.countP isPrintP st.printed + st.locals.length
        + (bs.map (fun b => b.countP isPlainMemI)).sum := by
  intro bs
  induction bs with
  | nil => intro st; simp
  | cons b rest ih =>
    intro st
    rw [List.foldl_cons, List.map_cons, List.sum_cons]
    have h2 := ih (collectBlock st b)
    rw [collectBlock_locals] at h2
    rw [collectBlock_count] at h2
    simp only [List.length_nil, Nat.add_zero] at h2
    omega

/-- The collection phase inserts exactly one print probe per plain load
or store of the function. -/
theorem collectF_print_count (F : Func) :
    List.countP isPrintP (collectF F).printed = memCountF F := by
  have hl : ∀ bs (st : CollectSt), st.locals = [] →
      (List.foldl collectBlock st bs).locals = [] := by
    intro bs
    induction bs with
    | nil => intro st h1; exact h1
    | cons b rest ih => intro st h1; rw [List.foldl_cons]; exact ih _ (collectBlock_locals st b)
  have h := collectBlocks_count F.blocks ⟨[], [], [], [], [], false⟩
  have h2 := hl F.blocks ⟨[], [], [], [], [], false⟩ rfl
  unfold collectF memCountF
  rw [h2] at h
  simpa using h

/-- Membership in a singleton fixes the probe. -/
theorem singleton_fam (x : Probe) (f : PFam) (hx : pFam x = f) :
    ∀ p ∈ [x], pFam p = f := by
  intro p hp
  simp only [List.mem_singleton] at hp
  subst hp
  exact hx

/-- The flush step keeps every inserted probe in the print family. -/
theorem flushSegment_printed_fam (st : CollectSt)
    (h : ∀ p ∈ st.printed, pFam p = PFam.printF) :
    ∀ p ∈ (flushSegment st).printed, pFam p = PFam.printF := by
  rw [flushSegment_printed]
  intro p hp
  rcases List.mem_append.1 hp with h1 | h1
  · exact h p h1
  · obtain ⟨m, _, rfl⟩ := List.mem_map.1 h1
    rfl

/-- One collection step keeps every inserted probe in the print family. -/
theorem collectInstr_printed_fam (st : CollectSt) (i : Instr)
    (h : ∀ p ∈ st.printed, pFam p = PFam.printF) :
    ∀ p ∈ (collectInstr st i).printed, pFam p = PFam.printF := by
  simp only [collectInstr]
  split
  · exact h
  · cases i with
    | mem m => exact h
    | memSetI d v l => exact flushSegment_printed_fam _ h
    | memCpyI d s l => exact flushSegment_printed_fam _ h
    | memMoveI d s l => exact flushSegment_printed_fam _ h
    | libcall fn args => exact flushSegment_printed_fam _ h
    | callOther => exact flushSegment_printed_fam _ h
    | ret => exact h
    | otherInstr => exact h
    | rmw op a sz ord v => exact h
    | cas a sz so fo c n => exact h
    | fence ord st1 => exact h

/-- Everything the collection phase inserts is a print probe. -/
theorem collectF_printed_fam (F : Func) :
    ∀ p ∈ (collectF F).printed, pFam p = PFam.printF := by
  refine foldlInv (P := fun st : CollectSt => ∀ p ∈ st.printed, pFam p = PFam.printF)
    collectBlock ?_ F.blocks ⟨[], [], [], [], [], false⟩ ?_
  · intro st blk hst
    exact flushSegment_printed_fam _
      (foldlInv (P := fun st : CollectSt => ∀ p ∈ st.printed, pFam p = PFam.printF)
        collectInstr (fun s i hs => collectInstr_printed_fam s i hs) blk st hst)
  · intro p hp
    simp at hp

/-- Every probe the plain-access lowering emits is an access probe. -/
theorem instrumentLoadOrStore_fam (m : MemOp) (p : Probe)
    (h : instrumentLoadOrStore m = some p) : pFam p = PFam.accessF := by
  by_cases hsw : m.swiftError = true
  · simp [instrumentLoadOrStore, hsw] at h
  · simp only [Bool.not_eq_true] at hsw
    cases hidx : getMemoryAccessFuncIndex m.sizeBits with
    | none => simp [instrumentLoadOrStore, hsw, hidx] at h
    | some idx =>
      cases hst : m.isStore <;> cases hvt : m.vtableAccess <;>
        by_cases hal : (m.alignment = 0 ∨ 8 ≤ m.alignment ∨
          m.alignment % (m.sizeBits / 8) = 0) <;>
        simp [instrumentLoadOrStore, hsw, hidx, hst, hvt, hal] at h <;>
        rw [← h] <;> rfl

/-- Every probe the access phase emits is an access probe. -/
theorem accessPhase_fam (ms : List MemOp) :
    ∀ p ∈ (accessPhase ms).1, pFam p = PFam.accessF := by
  refine foldlInv (P := fun acc : List Probe × Bool => ∀ p ∈ acc.1, pFam p = PFam.accessF)
    _ ?_ ms ([], false) ?_
  · intro acc m hacc
    cases him : instrumentLoadOrStore m with
    | none => simpa [him] using hacc
    | some p =>
      simp only [him]
      intro q hq
      rcases List.mem_append.1 hq with h1 | h1
      · exact hacc q h1
      · simp only [List.mem_singleton] at h1
        subst h1
        exact instrumentLoadOrStore_fam m q him
  · intro p hp
    simp at hp

/-- Every probe the atomic lowering emits is an atomic probe. -/
theorem instrumentAtomic_fam (i : Instr) (ps : List Probe) (r : Bool)
    (h : instrumentAtomic i = some (ps, r)) : ∀ p ∈ ps, pFam p = PFam.atomicF := by
  cases i with
  | mem m =>
    cases hidx : getMemoryAccessFuncIndex m.sizeBits with
    | none =>
      simp [instrumentAtomic, hidx] at h
      obtain ⟨h1, h2⟩ := h
      subst h1
      simp
    | some idx =>
      cases hord : createOrdering m.ord with
      | none => simp [instrumentAtomic, hidx, hord] at h
      | some ov =>
        cases hst : m.isStore <;> simp [instrumentAtomic, hidx, hord, hst] at h <;>
          obtain ⟨h1, h2⟩ := h <;> subst h1 <;> exact singleton_fam _ _ rfl
  | rmw op a sz ord v =>
    cases hidx : getMemoryAccessFuncIndex sz with
    | none =>
      simp [instrumentAtomic, hidx] at h
      obtain ⟨h1, h2⟩ := h
      subst h1
      simp
    | some idx =>
      cases hop : rmwHasProbe op with
      | false =>
        simp [instrumentAtomic, hidx, hop] at h
        obtain ⟨h1, h2⟩ := h
        subst h1
        simp
      | true =>
        cases hord : createOrdering ord with
        | none => simp [instrumentAtomic, hidx, hop, hord] at h
        | some ov =>
          simp [instrumentAtomic, hidx, hop, hord] at h
          obtain ⟨h1, h2⟩ := h
          subst h1
          exact singleton_fam _ _ rfl
  | cas a sz so fo c n =>
    cases hidx : getMemoryAccessFuncIndex sz with
    | none =>
      simp [instrumentAtomic, hidx] at h
      obtain ⟨h1, h2⟩ := h
      subst h1
      simp
    | some idx =>
      cases hso : createOrdering so with
      | none => simp [instrumentAtomic, hidx, hso] at h
      | some sv =>
        cases hfo : createOrdering fo with
        | none => simp [instrumentAtomic, hidx, hso, hfo] at h
        | some fv =>
          simp [instrumentAtomic, hidx, hso, hfo] at h
          obtain ⟨h1, h2⟩ := h
          subst h1
          exact singleton_fam _ _ rfl
  | fence ord st1 =>
    cases hord : createOrdering ord with
    | none => simp [instrumentAtomic, hord] at h
    | some ov =>
      cases st1 <;> simp [instrumentAtomic, hord] at h <;>
        obtain ⟨h1, h2⟩ := h <;> subst h1 <;> exact singleton_fam _ _ rfl
  | memSetI d v l =>
    simp [instrumentAtomic] at h
    obtain ⟨h1, h2⟩ := h
    subst h1
    simp
  | memCpyI d s l =>
    simp [instrumentAtomic] at h
    obtain ⟨h1, h2⟩ := h
    subst h1
    simp
  | memMoveI d s l =>
    simp [instrumentAtomic] at h
    obtain ⟨h1, h2⟩ := h
    subst h1
    simp
  | libcall fn args =>
    simp [instrumentAtomic] at h
    obtain ⟨h1, h2⟩ := h
    subst h1
    simp
  | callOther =>
    simp [instrumentAtomic] at h
    obtain ⟨h1, h2⟩ := h
    subst h1
    simp
  | ret =>
    simp [instrumentAtomic] at h
    obtain ⟨h1, h2⟩ := h
    subst h1
    simp
  | otherInstr =>
    simp [instrumentAtomic] at h
    obtain ⟨h1, h2⟩ := h
    subst h1
    simp

/-- Every probe the atomic phase emits is an atomic probe. -/
theorem atomicPhase_fam : ∀ (is : List Instr) (ps : List Probe) (r : Bool),
    atomicPhase is = some (ps, r) → ∀ p ∈ ps, pFam p = PFam.atomicF := by
  intro is
  induction is with
  | nil =>
    intro ps r h
    simp [atomicPhase] at h
    obtain ⟨h1, h2⟩ := h
    subst h1
    simp
  | cons i rest ih =>
    intro ps r h
    simp only [atomicPhase] at h
    cases hi : instrumentAtomic i with
    | none => rw [hi] at h; cases h
    | some pr =>
      cases hrest : atomicPhase rest with
      | none => rw [hi, hrest] at h; cases h
      | some pr2 =>
        rw [hi, hrest] at h
        cases h
        intro p hp
        rcases List.mem_append.1 hp with h1 | h1
        · exact instrumentAtomic_fam i pr.1 pr.2 (by simpa using hi) p h1
        · exact ih pr2.1 pr2.2 (by simpa using hrest) p h1

/-- Every probe the bulk-memory phase emits is a bulk probe. -/
theorem memIntrinProbe_fam (i : Instr) : ∀ p ∈ memIntrinProbe i, pFam p = PFam.bulkF := by
  cases i <;>
    first
      | exact singleton_fam _ _ rfl
      | (intro p hp; simp [memIntrinProbe] at hp)

/-- Every probe of the bulk-memory loop is a bulk probe. -/
theorem memIntrinPhase_fam (is : List Instr) :
    ∀ p ∈ memIntrinPhase is, pFam p = PFam.bulkF := by
  refine foldlInv (P := fun ps : List Probe => ∀ p ∈ ps, pFam p = PFam.bulkF)
    _ ?_ is [] ?_
  · intro ps i hps q hq
    rcases List.mem_append.1 hq with h1 | h1
    · exact hps q h1
    · exact memIntrinProbe_fam i q h1
  · intro p hp
    simp at hp

/-- Every probe of the runtime-ignore bracket is an ignore probe. -/
theorem ignores_fam (fl : Flags) (F : Func) :
    ∀ p ∈ InsertRuntimeIgnores fl F, pFam p = PFam.ignoreF := by
  intro p hp
  rcases List.mem_cons.1 hp with rfl | h1
  · rfl
  · rw [List.eq_of_mem_replicate h1]
    rfl

/-- Every probe of the entry/exit synthesizer is a lifecycle probe. -/
theorem entryExit_fam (fl : Flags) (F : Func) :
    ∀ p ∈ entryExitProbes fl F, pFam p = PFam.entryF := by
  intro p hp
  rcases List.mem_cons.1 hp with rfl | h1
  · rfl
  · rcases List.mem_append.1 h1 with h2 | h2
    · rw [List.eq_of_mem_replicate h2]
      rfl
    · by_cases hm : (F.name == "main") = true
      · rw [hm] at h2
        simp only [if_true] at h2
        rw [List.eq_of_mem_replicate h2]
        rfl
      · simp only [Bool.not_eq_true] at hm
        rw [hm] at h2
        simp at h2

/-- A probe satisfying the print predicate is in the print family. -/
theorem isPrintP_fam (p : Probe) (h : isPrintP p = true) : pFam p = PFam.printF := by
  cases p <;> first | rfl | simp [isPrintP] at h

/-- A probe satisfying the entry predicate is in the lifecycle family. -/
theorem isFuncEntryP_fam (p : Probe) (h : isFuncEntryP p = true) : pFam p = PFam.entryF := by
  cases p <;> first | rfl | simp [isFuncEntryP] at h

/-- A probe satisfying the exit predicate is in the lifecycle family. -/
theorem isFuncExitP_fam (p : Probe) (h : isFuncExitP p = true) : pFam p = PFam.entryF := by
  cases p <;> first | rfl | simp [isFuncExitP] at h

/-- A probe satisfying the finalize predicate is in the lifecycle family. -/
theorem isMainExitP_fam (p : Probe) (h : isMainExitP p = true) : pFam p = PFam.entryF := by
  cases p <;> first | rfl | simp [isMainExitP] at h

/-- A probe satisfying the begin-ignore predicate is in the ignore family. -/
theorem isIgnoreBeginP_fam (p : Probe) (h : isIgnoreBeginP p = true) :
    pFam p = PFam.ignoreF := by
  cases p <;> first | rfl | simp [isIgnoreBeginP] at h

/-- A probe satisfying the end-ignore predicate is in the ignore family. -/
theorem isIgnoreEndP_fam (p : Probe) (h : isIgnoreEndP p = true) :
    pFam p = PFam.ignoreF := by
  cases p <;> first | rfl | simp [isIgnoreEndP] at h

/-- A probe satisfying the access predicate is in the access family. -/
theorem isAccessP_fam (p : Probe) (h : isAccessP p = true) : pFam p = PFam.accessF := by
  simpa [isAccessP] using h

/-- The runtime-ignore bracket behind its guard stays in the ignore
family. -/
theorem ite_ignores_fam (c : Prop) [Decidable c] (fl : Flags) (F : Func) :
    ∀ p ∈ (if c then InsertRuntimeIgnores fl F else []), pFam p = PFam.ignoreF := by
  by_cases h : c
  · simpa [h] using ignores_fam fl F
  · simp [h]

/-- Decomposition of a successful phase1 run: the probes are the print
probes of the collection phase, then access/atomic/bulk probes, then the
runtime-ignore bracket; the assertion of line 551 has not fired; HasCalls
is the collection phase verdict. -/
theorem phase1_split (fl : Flags) (F : Func) (ps : List Probe) (res hc : Bool)
    (h : phase1 fl F = some (ps, res, hc)) :
    ∃ rest igs,
      ps = (collectF F).printed ++ rest ++ igs
      ∧ (∀ p ∈ rest, pFam p = PFam.accessF ∨ pFam p = PFam.atomicF ∨ pFam p = PFam.bulkF)
      ∧ (F.sanitizeThread = false → ∀ p ∈ rest, pFam p = PFam.atomicF)
      ∧ igs = (if F.noCheckingAtRunTime && (collectF F).hasCalls
               then InsertRuntimeIgnores fl F else [])
      ∧ (F.noCheckingAtRunTime && F.sanitizeThread) = false
      ∧ hc = (collectF F).hasCalls := by
  simp only [phase1] at h
  cases hap : atomicPhase (if fl.instrumentAtomics = true then (collectF F).atomics else []) with
  | none => rw [hap] at h; cases h
  | some pr =>
    obtain ⟨tps, tres⟩ := pr
    rw [hap] at h
    by_cases hnc : (F.noCheckingAtRunTime && F.sanitizeThread) = true
    · simp [hnc] at h
    · simp only [Bool.not_eq_true] at hnc
      simp only [hnc, Bool.false_eq_true, if_false, Option.some.injEq, Prod.mk.injEq] at h
      obtain ⟨hps, hres, hhc⟩ := h
      refine ⟨(if fl.instrumentMemoryAccesses && F.sanitizeThread
               then accessPhase (collectF F).all else ([], false)).1
              ++ tps
              ++ (if fl.instrumentMemIntrinsics && F.sanitizeThread
                  then memIntrinPhase (collectF F).memIntrins else []),
             (if F.noCheckingAtRunTime && (collectF F).hasCalls
              then InsertRuntimeIgnores fl F else []), ?_, ?_, ?_, rfl, hnc, hhc.symm⟩
      · rw [← hps]
        simp [List.append_assoc]
      · intro p hp
        rcases List.mem_append.1 hp with h1 | h1
        · rcases List.mem_append.1 h1 with h2 | h2
          · left
            by_cases hma : (fl.instrumentMemoryAccesses && F.sanitizeThread) = true
            · rw [hma] at h2
              simp only [if_true] at h2
              exact accessPhase_fam (collectF F).all p h2
            · simp only [Bool.not_eq_true] at hma
              rw [hma] at h2
              simp at h2
          · right; left
            exact atomicPhase_fam _ tps tres hap p h2
        · right; right
          by_cases hmi : (fl.instrumentMemIntrinsics && F.sanitizeThread) = true
          · rw [hmi] at h1
            simp only [if_true] at h1
            exact memIntrinPhase_fam (collectF F).memIntrins p h1
          · simp only [Bool.not_eq_true] at hmi
            rw [hmi] at h1
            simp at h1
      · intro hsan p hp
        rw [hsan] at hp
        simp only [Bool.and_false, Bool.false_eq_true, if_false] at hp
        rcases List.mem_append.1 hp with h1 | h1
        · rcases List.mem_append.1 h1 with h2 | h2
          · simp at h2
          · exact atomicPhase_fam _ tps tres hap p h2
        · simp at h1

/-- Nothing in a list avoiding a family satisfies a predicate confined to
that family. -/
theorem countP_zero_of_fams (l : List Probe) (q : Probe → Bool) (fq : PFam)
    (hq : ∀ p, q p = true → pFam p = fq) (hl : ∀ p ∈ l, pFam p ≠ fq) :
    List.countP q l = 0 := by
  rw [List.countP_eq_zero]
  intro p hp hqp
  exact hl p hp (hq p hqp)

/-- Zero count when the whole list sits in a family the predicate never
touches. -/
theorem countP_zero_of_const_fam (l : List Probe) (q : Probe → Bool) (fq f : PFam)
    (hq : ∀ p, q p = true → pFam p = fq) (hl : ∀ p ∈ l, pFam p = f) (hne : f ≠ fq) :
    List.countP q l = 0 :=
  countP_zero_of_fams l q fq hq (fun p hp => by rw [hl p hp]; exact hne)

/-- Lifecycle probe counts of the entry/exit synthesizer. -/
theorem entryExit_counts (fl : Flags) (F : Func) :
    List.countP isFuncEntryP (entryExitProbes fl F) = 1
    ∧ List.countP isFuncExitP (entryExitProbes fl F) = exitPaths fl F
    ∧ List.countP isMainExitP (entryExitProbes fl F)
        = (if F.name == "main" then exitPaths fl F else 0) := by
  by_cases hm : (F.name == "main") = true <;>
    refine ⟨?_, ?_, ?_⟩ <;>
      simp [entryExitProbes, hm, List.countP_cons, List.countP_append, countP_replicate,
            isFuncEntryP, isFuncExitP, isMainExitP]

/-- Ignore probe counts of the runtime-ignore bracket. -/
theorem ignores_counts (fl : Flags) (F : Func) :
    List.countP isIgnoreBeginP (InsertRuntimeIgnores fl F) = 1
    ∧ List.countP isIgnoreEndP (InsertRuntimeIgnores fl F) = exitPaths fl F
    ∧ List.countP isAccessP (InsertRuntimeIgnores fl F) = 0 := by
  refine ⟨?_, ?_, ?_⟩ <;>
    simp [InsertRuntimeIgnores, List.countP_cons, countP_replicate,
          isIgnoreBeginP, isIgnoreEndP, isAccessP, pFam]

/-! The claims. -/

/-- C1: in a call-free run processed in reverse program order, every
store to a non-excluded address is recorded in the write set and
scheduled; a load is dropped when its address is excluded, already in the
write set (shadowed by a later write), or points to constant data
(constant global or vtable-tagged load); and a load or store on a
never-captured stack allocation is not scheduled.  Stated as equality of
the code filter with the filter as the claim words it
(specLocalFilter). -/
theorem claim_C1 (seg all : List MemOp) (printed : List Probe) :
    (chooseInstructionsToInstrument seg all printed).all
        = all ++ (specLocalFilter [] seg.reverse).2
    ∧ (chooseInstructionsToInstrument seg all printed).writeTargets
        = (specLocalFilter [] seg.reverse).1 :=
  ⟨choose_all seg all printed, choose_writeTargets seg all printed⟩

/-- C3: the ordering encoder maps relaxed (unordered/monotonic) to 0,
acquire to 2, release to 3, acquire-release to 4 and sequentially
consistent to 5; the reserved value 1 is never produced; and a not-atomic
ordering is a defect (llvm_unreachable, modelled as none), not a handled
case. -/
theorem claim_C3 :
    createOrdering AtomicOrdering.unordered = some 0
    ∧ createOrdering AtomicOrdering.monotonic = some 0
    ∧ createOrdering AtomicOrdering.acquire = some 2
    ∧ createOrdering AtomicOrdering.release = some 3
    ∧ createOrdering AtomicOrdering.acquireRelease = some 4
    ∧ createOrdering AtomicOrdering.sequentiallyConsistent = some 5
    ∧ createOrdering AtomicOrdering.notAtomic = none
    ∧ (∀ o : AtomicOrdering, createOrdering o ≠ some 1) := by
  refine ⟨rfl, rfl, rfl, rfl, rfl, rfl, rfl, ?_⟩
  intro o
  cases o <;> simp [createOrdering]

/-- C4: the two-part result {old value, success flag} reconstructed from
the single value returned by the CAS probe equals what the un-instrumented
compare-exchange would have produced, on both the success and failure
branches, and the memory effect agrees as well. -/
theorem claim_C4 (memV expected newV : Nat) :
    casReconstruct (tsanAtomicCASProbe memV expected newV).2 expected
        = (atomicCmpXchg memV expected newV).1
    ∧ (tsanAtomicCASProbe memV expected newV).1
        = (atomicCmpXchg memV expected newV).2 :=
  ⟨rfl, rfl⟩

/-- C7: bulk-memory lowering replaces each memset/memcpy/memmove
intrinsic in place by a plain call to the corresponding library primitive
with the same arguments and deletes the intrinsic; after one pass no
bulk-memory operation remains, so a second pass changes nothing. -/
theorem claim_C7 (prog : List Instr) (d v s l : Nat) :
    instrumentMemIntrinsic (Instr.memSetI d v l) = Instr.libcall LibFn.memsetF [d, v, l]
    ∧ instrumentMemIntrinsic (Instr.memCpyI d s l) = Instr.libcall LibFn.memcpyF [d, s, l]
    ∧ instrumentMemIntrinsic (Instr.memMoveI d s l) = Instr.libcall LibFn.memmoveF [d, s, l]
    ∧ (∀ i ∈ lowerBulk prog, isMemIntrinsicI i = false)
    ∧ lowerBulk (lowerBulk prog) = lowerBulk prog := by
  refine ⟨rfl, rfl, rfl, ?_, ?_⟩
  · intro i hi
    obtain ⟨j, _, rfl⟩ := List.mem_map.1 hi
    cases j <;> rfl
  · rw [lowerBulk, lowerBulk, List.map_map]
    apply List.map_congr_left
    intro j _
    cases j <;> rfl

/-- C5: the three soft-skip conditions.  An access size outside
{1,2,4,8,16} bytes gets no probe-table index, bumps the bad-size counter,
and makes both lowering functions skip that one instruction; an atomic
RMW whose operation kind has no probe is skipped; a skipped atomic
contributes nothing to the rest of the loop; an address in a non-default
address space or in the toolchain counter section fails the filter and
that instruction is neither recorded nor scheduled.  In every case
processing continues rather than failing. -/
theorem claim_C5 :
    (∀ n : Nat, getMemoryAccessFuncIndex n = none
        ↔ ¬(n = 8 ∨ n = 16 ∨ n = 32 ∨ n = 64 ∨ n = 128))
    ∧ (∀ n : Nat, getMemoryAccessFuncIndex n = none ↔ numAccessesWithBadSizeDelta n = 1)
    ∧ (∀ m : MemOp, getMemoryAccessFuncIndex m.sizeBits = none →
        instrumentLoadOrStore m = none ∧ instrumentAtomic (Instr.mem m) = some ([], false))
    ∧ (∀ (op : RMWOp) (a : Addr) (sz : Nat) (ord : AtomicOrdering) (v : Nat),
        rmwHasProbe op = false → instrumentAtomic (Instr.rmw op a sz ord v) = some ([], false))
    ∧ (∀ (i : Instr) (rest : List Instr), instrumentAtomic i = some ([], false) →
        atomicPhase (i :: rest) = atomicPhase rest)
    ∧ (∀ a : Addr, a.addrSpace ≠ 0 → shouldInstrumentReadWriteFromAddress a = false)
    ∧ (∀ (a : Addr) (gcov c : Bool), a.base = AddrBase.globalVar true gcov c →
        shouldInstrumentReadWriteFromAddress a = false)
    ∧ (∀ (s : ChooseSt) (m : MemOp), shouldInstrumentReadWriteFromAddress m.addr = false →
        (chooseStep s m).all = s.all ∧ (chooseStep s m).writeTargets = s.writeTargets) := by
  refine ⟨?_, ?_, ?_, ?_, ?_, ?_, ?_, ?_⟩
  · intro n
    unfold getMemoryAccessFuncIndex
    split_ifs with h1 h2 h3 h4 h5 <;> simp_all
  · intro n
    cases h : getMemoryAccessFuncIndex n <;> simp [numAccessesWithBadSizeDelta, h]
  · intro m h
    constructor
    · by_cases hsw : m.swiftError = true <;> simp [instrumentLoadOrStore, hsw, h]
    · simp [instrumentAtomic, h]
  · intro op a sz ord v hop
    cases hidx : getMemoryAccessFuncIndex sz <;> simp [instrumentAtomic, hidx, hop]
  · intro i rest h
    cases hr : atomicPhase rest with
    | none => simp [atomicPhase, h, hr]
    | some pr => obtain ⟨ps2, r2⟩ := pr; simp [atomicPhase, h, hr]
  · intro a h
    cases hb : a.base with
    | globalVar p g c =>
      cases p <;> cases g <;> simp [shouldInstrumentReadWriteFromAddress, hb, h]
    | loadVal vt => simp [shouldInstrumentReadWriteFromAddress, hb, h]
    | otherBase => simp [shouldInstrumentReadWriteFromAddress, hb, h]
  · intro a gcov c hb
    simp [shouldInstrumentReadWriteFromAddress, hb]
  · intro s m h
    cases hst : m.isStore <;> simp [chooseStep, hst, h]

/-- C5 witness: a fetch-max atomic (no probe for the max kind) on a
4-byte location is skipped, returning false without aborting. -/
theorem claim_C5_w :
    instrumentAtomic (Instr.rmw RMWOp.maxOp plainAddr 32 AtomicOrdering.monotonic 7)
      = some ([], false) :=
  claim_C5.2.2.2.1 RMWOp.maxOp plainAddr 32 AtomicOrdering.monotonic 7 rfl

/-- C6 counterexample: a 16-byte store with declared alignment 8 gets the
aligned probe variant although 8 is not compatible with the natural
alignment 16 of the access size, refuting the claim as stated. -/
theorem claim_C6_cex :
    instrumentLoadOrStore c6MemOp = some (Probe.write 4 0 5)
    ∧ naturallyAligned c6MemOp.alignment (c6MemOp.sizeBits / 8) = false := by
  constructor <;> decide

/-- C6 as amended: for a scheduled plain (non-vtable) load or store the
aligned variant is selected exactly when the declared alignment is 0, at
least 8, or a multiple of the access byte size — for power-of-two
alignments this differs from natural-alignment compatibility only for
16-byte accesses with alignment 8 — and the unaligned variant is selected
otherwise. -/
theorem claim_C6 (m : MemOp) (idx : Nat) (hsw : m.swiftError = false)
    (hvt : m.vtableAccess = false)
    (hidx : getMemoryAccessFuncIndex m.sizeBits = some idx) :
    ∃ p, instrumentLoadOrStore m = some p
      ∧ isAlignedVariantP p
          = decide (m.alignment = 0 ∨ 8 ≤ m.alignment ∨ m.alignment % (m.sizeBits / 8) = 0)
      ∧ isUnalignedVariantP p
          = !decide (m.alignment = 0 ∨ 8 ≤ m.alignment ∨ m.alignment % (m.sizeBits / 8) = 0) := by
  by_cases hal : (m.alignment = 0 ∨ 8 ≤ m.alignment ∨ m.alignment % (m.sizeBits / 8) = 0)
  · refine ⟨if m.isStore then Probe.write idx m.addr.id (m.line % 256)
            else Probe.read idx m.addr.id (m.line % 256), ?_, ?_, ?_⟩
    · simp [instrumentLoadOrStore, hsw, hvt, hidx, hal]
    · cases m.isStore <;> simp [isAlignedVariantP, hal]
    · cases m.isStore <;> simp [isUnalignedVariantP, hal]
  · refine ⟨if m.isStore then Probe.unalignedWrite idx m.addr.id (m.line % 256)
            else Probe.unalignedRead idx m.addr.id (m.line % 256), ?_, ?_, ?_⟩
    · simp [instrumentLoadOrStore, hsw, hvt, hidx, hal]
    · cases m.isStore <;> simp [isAlignedVariantP, hal]
    · cases m.isStore <;> simp [isUnalignedVariantP, hal]

/-- C6 witness: a 4-byte load with declared alignment 2 gets the
unaligned variant. -/
theorem claim_C6_w :
    ∃ p, instrumentLoadOrStore c6WMemOp = some p
      ∧ isAlignedVariantP p
          = decide (c6WMemOp.alignment = 0 ∨ 8 ≤ c6WMemOp.alignment
              ∨ c6WMemOp.alignment % (c6WMemOp.sizeBits / 8) = 0)
      ∧ isUnalignedVariantP p
          = !decide (c6WMemOp.alignment = 0 ∨ 8 ≤ c6WMemOp.alignment
              ∨ c6WMemOp.alignment % (c6WMemOp.sizeBits / 8) = 0) :=
  claim_C6 c6WMemOp 2 rfl rfl (by decide)

/-- C10: every plain-access and vtable probe carries a source-line
argument truncated to 8 bits, so the runtime receives the line number
modulo 256. -/
theorem claim_C10 (m : MemOp) (p : Probe) (h : instrumentLoadOrStore m = some p) :
    probeLineArg p = some (m.line % 256) ∧ m.line % 256 < 256 := by
  constructor
  · by_cases hsw : m.swiftError = true
    · simp [instrumentLoadOrStore, hsw] at h
    · simp only [Bool.not_eq_true] at hsw
      cases hidx : getMemoryAccessFuncIndex m.sizeBits with
      | none => simp [instrumentLoadOrStore, hsw, hidx] at h
      | some idx =>
        cases hst : m.isStore <;> cases hvt : m.vtableAccess <;>
          by_cases hal : (m.alignment = 0 ∨ 8 ≤ m.alignment ∨
            m.alignment % (m.sizeBits / 8) = 0) <;>
          simp [instrumentLoadOrStore, hsw, hidx, hst, hvt, hal] at h <;>
          rw [← h] <;> rfl
  · exact Nat.mod_lt _ (by decide)

/-- C10 witness: a store on source line 300 reaches the runtime with line
argument 44. -/
theorem claim_C10_w :
    probeLineArg (Probe.write 2 0 44) = some 44 ∧ 44 < 256 :=
  claim_C10 c10MemOp (Probe.write 2 0 44) (by decide)

/-- C9: the redundancy filter inserts one __tsan_print_variables probe in
front of every plain load and store of the function, before and
regardless of any eligibility decision, also in functions that are not
race-checked: the collection phase emits exactly one print probe per
plain load/store, and that count survives into the probes of every
successful phase1 run, under any flags and any attribute combination. -/
theorem claim_C9 (F : Func) :
    List.countP isPrintP (collectF F).printed = memCountF F
    ∧ ∀ (fl : Flags) (ps : List Probe) (res hc : Bool),
        phase1 fl F = some (ps, res, hc) →
        List.countP isPrintP ps = memCountF F := by
  constructor
  · exact collectF_print_count F
  · intro fl ps res hc h
    obtain ⟨rest, igs, hps, hrest, _, higs, _, _⟩ := phase1_split fl F ps res hc h
    subst hps
    simp only [List.countP_append]
    have h1 : List.countP isPrintP rest = 0 :=
      countP_zero_of_fams rest isPrintP PFam.printF isPrintP_fam
        (fun p hp heq => by
          rcases hrest p hp with h2 | h2 | h2 <;> rw [heq] at h2 <;>
            exact absurd h2 (by decide))
    have h2 : List.countP isPrintP igs = 0 :=
      countP_zero_of_fams igs isPrintP PFam.printF isPrintP_fam
        (fun p hp heq => by
          have h3 : pFam p = PFam.ignoreF := by
            rw [higs] at hp
            exact ite_ignores_fam _ fl F p hp
          rw [heq] at h3
          exact absurd h3 (by decide))
    rw [h1, h2, collectF_print_count]
    omega

/-- C9 witness: a function that is not race-checked, with one store and
one load and no call, still receives two print probes. -/
theorem claim_C9_w :
    List.countP isPrintP (collectF c9Func).printed = memCountF c9Func
    ∧ memCountF c9Func = 2 :=
  ⟨(claim_C9 c9Func).1, by decide⟩

/-- C2 counterexample: a race-checked function with no accesses and no
calls receives no entry probe at all — being race-checked alone does not
trigger the synthesizer, refuting the claim as stated. -/
theorem claim_C2_cex :
    c2Func.sanitizeThread = true
    ∧ runOnFunction defaultFlags c2Func = some ([], false) := by
  constructor
  · rfl
  · decide

/-- C2 as amended: whenever any instrumentation occurred or the function
contains a call (being race-checked alone does not suffice), the
synthesizer appends exactly one entry probe, one exit probe per exit path
(syntactic return points plus exception-unwind edges, N+M in total), and,
when the function is the program entry point main, one finalize probe per
exit path. -/
theorem claim_C2 (F : Func) (ps : List Probe) (res hc : Bool)
    (h : phase1 defaultFlags F = some (ps, res, hc)) (htrig : (res || hc) = true) :
    runOnFunction defaultFlags F = some (ps ++ entryExitProbes defaultFlags F, true)
    ∧ List.countP isFuncEntryP (ps ++ entryExitProbes defaultFlags F) = 1
    ∧ List.countP isFuncExitP (ps ++ entryExitProbes defaultFlags F)
        = exitPaths defaultFlags F
    ∧ List.countP isMainExitP (ps ++ entryExitProbes defaultFlags F)
        = (if F.name == "main" then exitPaths defaultFlags F else 0) := by
  obtain ⟨rest, igs, hps, hrest, _, higs, _, _⟩ := phase1_split defaultFlags F ps res hc h
  have hfam : ∀ p ∈ ps, pFam p ≠ PFam.entryF := by
    intro p hp heq
    rw [hps] at hp
    rcases List.mem_append.1 hp with h1 | h1
    · rcases List.mem_append.1 h1 with h2 | h2
      · have h3 := collectF_printed_fam F p h2
        rw [heq] at h3
        exact absurd h3 (by decide)
      · rcases hrest p h2 with h3 | h3 | h3 <;> rw [heq] at h3 <;>
          exact absurd h3 (by decide)
    · have h3 : pFam p = PFam.ignoreF := by
        rw [higs] at h1
        exact ite_ignores_fam _ defaultFlags F p h1
      rw [heq] at h3
      exact absurd h3 (by decide)
  obtain ⟨he1, he2, he3⟩ := entryExit_counts defaultFlags F
  have hf : defaultFlags.instrumentFuncEntryExit = true := rfl
  refine ⟨?_, ?_, ?_, ?_⟩
  · simp [runOnFunction, h, htrig, hf]
  · rw [List.countP_append,
        countP_zero_of_fams ps isFuncEntryP PFam.entryF isFuncEntryP_fam hfam, he1]
  · rw [List.countP_append,
        countP_zero_of_fams ps isFuncExitP PFam.entryF isFuncExitP_fam hfam, he2]
    omega
  · rw [List.countP_append,
        countP_zero_of_fams ps isMainExitP PFam.entryF isMainExitP_fam hfam, he3]
    omega

/-- C2 witness: the program entry point with one call and one return gets
one entry probe, one exit probe and one finalize probe. -/
theorem claim_C2_w :
    runOnFunction defaultFlags c2MainFunc
        = some ([] ++ entryExitProbes defaultFlags c2MainFunc, true)
    ∧ List.countP isFuncEntryP ([] ++ entryExitProbes defaultFlags c2MainFunc) = 1
    ∧ List.countP isFuncExitP ([] ++ entryExitProbes defaultFlags c2MainFunc)
        = exitPaths defaultFlags c2MainFunc
    ∧ List.countP isMainExitP ([] ++ entryExitProbes defaultFlags c2MainFunc)
        = (if c2MainFunc.name == "main" then exitPaths defaultFlags c2MainFunc else 0) :=
  claim_C2 c2MainFunc [] false true (by decide) rfl

/-- C8: a function marked suppressed-at-runtime that contains a call gets
one begin-ignore probe and one end-ignore probe per exit path instead of
access instrumentation (no plain-access or vtable probe is emitted); a
function marked both race-checked and suppressed hits the assertion of
line 551 and processing aborts. -/
theorem claim_C8 (F : Func) (ps : List Probe) (r : Bool) :
    (F.noCheckingAtRunTime = true → F.sanitizeThread = true →
        runOnFunction defaultFlags F = none)
    ∧ (F.noCheckingAtRunTime = true → (collectF F).hasCalls = true →
        runOnFunction defaultFlags F = some (ps, r) →
        List.countP isIgnoreBeginP ps = 1
        ∧ List.countP isIgnoreEndP ps = exitPaths defaultFlags F
        ∧ List.countP isAccessP ps = 0) := by
  constructor
  · intro hnc hsan
    cases hph : phase1 defaultFlags F with
    | none => simp [runOnFunction, hph]
    | some t =>
      obtain ⟨ps1, res1, hc1⟩ := t
      obtain ⟨_, _, _, _, _, _, hncfalse, _⟩ :=
        phase1_split defaultFlags F ps1 res1 hc1 hph
      rw [hnc, hsan] at hncfalse
      simp at hncfalse
  · intro hnc hcalls hrun
    cases hph : phase1 defaultFlags F with
    | none => simp [runOnFunction, hph] at hrun
    | some t =>
      obtain ⟨ps1, res1, hc1⟩ := t
      obtain ⟨rest, igs, hps1, hrest, hsanrest, higs, hncfalse, hhc⟩ :=
        phase1_split defaultFlags F ps1 res1 hc1 hph
      have hsan : F.sanitizeThread = false := by
        cases hq : F.sanitizeThread
        · rfl
        · rw [hnc, hq] at hncfalse
          simp at hncfalse
      have htrig : (res1 || hc1) = true := by
        rw [hhc, hcalls]
        simp
      have hf : defaultFlags.instrumentFuncEntryExit = true := rfl
      have hrun2 : runOnFunction defaultFlags F
          = some (ps1 ++ entryExitProbes defaultFlags F, true) := by
        simp [runOnFunction, hph, htrig, hf]
      rw [hrun2] at hrun
      injection hrun with h1
      injection h1 with hps2 hr2
      have higs2 : igs = InsertRuntimeIgnores defaultFlags F := by
        rw [higs, hnc, hcalls]
        simp
      obtain ⟨hi1, hi2, hi3⟩ := ignores_counts defaultFlags F
      have hprint := collectF_printed_fam F
      have hrest2 : ∀ p ∈ rest, pFam p = PFam.atomicF := hsanrest hsan
      have heps := entryExit_fam defaultFlags F
      rw [← hps2, hps1, higs2]
      simp only [List.countP_append]
      refine ⟨?_, ?_, ?_⟩
      · rw [countP_zero_of_const_fam _ isIgnoreBeginP PFam.ignoreF PFam.printF
              isIgnoreBeginP_fam hprint (by decide),
            countP_zero_of_const_fam rest isIgnoreBeginP PFam.ignoreF PFam.atomicF
              isIgnoreBeginP_fam hrest2 (by decide),
            countP_zero_of_const_fam _ isIgnoreBeginP PFam.ignoreF PFam.entryF
              isIgnoreBeginP_fam heps (by decide), hi1]
      · rw [countP_zero_of_const_fam _ isIgnoreEndP PFam.ignoreF PFam.printF
              isIgnoreEndP_fam hprint (by decide),
            countP_zero_of_const_fam rest isIgnoreEndP PFam.ignoreF PFam.atomicF
              isIgnoreEndP_fam hrest2 (by decide),
            countP_zero_of_const_fam _ isIgnoreEndP PFam.ignoreF PFam.entryF
              isIgnoreEndP_fam heps (by decide), hi2]
        omega
      · rw [countP_zero_of_const_fam _ isAccessP PFam.accessF PFam.printF
              isAccessP_fam hprint (by decide),
            countP_zero_of_const_fam rest isAccessP PFam.accessF PFam.atomicF
              isAccessP_fam hrest2 (by decide),
            countP_zero_of_const_fam _ isAccessP PFam.accessF PFam.entryF
              isAccessP_fam heps (by decide), hi3]

/-- C8 witness: a suppressed function with one call and one return gets
exactly one begin-ignore, one end-ignore and no access probe. -/
theorem claim_C8_w :
    List.countP isIgnoreBeginP
        [Probe.ignoreBegin, Probe.ignoreEnd,
         Probe.funcEntry c8Func.name, Probe.funcExit c8Func.name] = 1
    ∧ List.countP isIgnoreEndP
        [Probe.ignoreBegin, Probe.ignoreEnd,
         Probe.funcEntry c8Func.name, Probe.funcExit c8Func.name]
        = exitPaths defaultFlags c8Func
    ∧ List.countP isAccessP
        [Probe.ignoreBegin, Probe.ignoreEnd,
         Probe.funcEntry c8Func.name, Probe.funcExit c8Func.name] = 0 :=
  (claim_C8 c8Func
      [Probe.ignoreBegin, Probe.ignoreEnd,
       Probe.funcEntry c8Func.name, Probe.funcExit c8Func.name] true).2
    rfl rfl (by decide)

end ESan
